import Mathlib

/-!
Shallow embedding of the dm-ddi device-mapper target (src/dm-ddi.c): a block
I/O interposition layer that redirects reads/writes to one of two endpoints
and injects a configurable delay before releasing each request.

Time (jiffies) and sectors are modelled as `Nat`.  The C `unsigned` delay
values are modelled as `Nat`, with the two's-complement reinterpretation made
explicit (`% 2^32`) at the one place it matters: `store_delay` parses the
sysfs input with `sscanf("%d", ...)` into an `unsigned` variable, so a
negative number wraps.  The in-flight counters are exact naturals; on
reachable states they never underflow (proved below), so truncated `Nat`
subtraction agrees with unsigned decrement there.
-/

namespace Ddi

/-- Direction of a request, `bio_data_dir(bio)`. -/
inductive Dir where
  | read : Dir
  | write : Dir
deriving DecidableEq, Repr

/-- The per-bio bookkeeping record `struct dm_delay_info`: direction and
sector data of the owning bio (used to recover the bio on flush), plus the
absolute expiry in jiffies.  `id` distinguishes distinct requests. -/
structure DelayInfo where
  id : Nat
  dir : Dir
  expires : Nat
deriving DecidableEq, Repr

/-- The kernel timer of one engine instance: `timer_pending` flag and the
armed `expires` field of `struct timer_list`. -/
structure Timer where
  pending : Bool
  expires : Nat
deriving DecidableEq, Repr

/-- `struct delay_c`: the engine instance.  Devices are abstract identities
(`Nat`); `dev_write = none` means no write endpoint was configured. -/
structure DelayC where
  delay_timer : Timer
  delayed_bios : List DelayInfo
  may_delay : Bool
  dev_read : Nat
  start_read : Nat
  read_delay : Nat
  reads : Nat
  dev_write : Option Nat
  start_write : Nat
  write_delay : Nat
  writes : Nat
deriving DecidableEq, Repr

/-- A bio: backing device, starting sector, number of data sectors
(`bio_sectors`), direction, and an identity. -/
structure Bio where
  id : Nat
  bi_bdev : Nat
  bi_sector : Nat
  sectors : Nat
  dir : Dir
deriving DecidableEq, Repr

/-- Return value of the map path: `DM_MAPIO_REMAPPED` (forward immediately)
or `DM_MAPIO_SUBMITTED` (deferred in the delay queue). -/
inductive MapResult where
  | remapped : MapResult
  | submitted : MapResult
deriving DecidableEq, Repr

/-- `queue_timeout`: reprogram the coalesced timer to `expires` when no timer
is pending or `expires` is earlier than the currently armed time
(`mod_timer` marks the timer pending); otherwise leave it untouched. -/
def queue_timeout (dc : DelayC) (expires : Nat) : DelayC :=
  if dc.delay_timer.pending = false ∨ expires < dc.delay_timer.expires then
    { dc with delay_timer := { pending := true, expires := expires } }
  else
    dc

/-- `delay_bio`: admission.  A zero delay or a cleared may-delay flag forwards
the bio immediately (`DM_MAPIO_REMAPPED`, no state change).  Otherwise the bio
is stamped with `expires = jiffies + delay`, the direction counter is
incremented, the entry is appended to the tail of the delay queue, and the
timer is armed with the new expiry. -/
def delay_bio (dc : DelayC) (delay : Nat) (bio : Bio) (now : Nat) :
    DelayC × MapResult :=
  if delay = 0 ∨ dc.may_delay = false then
    (dc, MapResult.remapped)
  else
    let expires := now + delay
    let info : DelayInfo := { id := bio.id, dir := bio.dir, expires := expires }
    let dc₁ :=
      if bio.dir = Dir.write then
        { dc with writes := dc.writes + 1 }
      else
        { dc with reads := dc.reads + 1 }
    let dc₂ := { dc₁ with delayed_bios := dc₁.delayed_bios ++ [info] }
    (queue_timeout dc₂ expires, MapResult.submitted)

/-- `dm_target_offset(ti, sector)`: the bio's logical offset within the
mapping, `sector - ti->begin`. -/
def dm_target_offset (ti_begin : Nat) (sector : Nat) : Nat :=
  sector - ti_begin

/-- `delay_map`: route a bio.  A write with a configured write endpoint goes
to the write device with the write delay, translating the sector only when
the bio carries data sectors; everything else goes to the read device with
the read delay, translating unconditionally. -/
def delay_map (dc : DelayC) (ti_begin : Nat) (bio : Bio) (now : Nat) :
    DelayC × Bio × MapResult :=
  if bio.dir = Dir.write ∧ dc.dev_write ≠ none then
    let bio₁ := { bio with bi_bdev := dc.dev_write.getD 0 }
    let bio₂ :=
      if bio₁.sectors ≠ 0 then
        { bio₁ with bi_sector := dc.start_write + dm_target_offset ti_begin bio₁.bi_sector }
      else
        bio₁
    let r := delay_bio dc dc.write_delay bio₂ now
    (r.1, bio₂, r.2)
  else
    let bio₁ := { bio with
      bi_bdev := dc.dev_read,
      bi_sector := dc.start_read + dm_target_offset ti_begin bio.bi_sector }
    let r := delay_bio dc dc.read_delay bio₁ now
    (r.1, bio₁, r.2)

/-- The single pass of `flush_delayed_bios` over the delay queue
(`list_for_each_entry_safe`): entries matching the flush condition are
unlinked and appended to the flush list (`bio_list_add`, tail append, so scan
order is preserved); for each kept entry the candidate timeout is started on
the first (`start_timer = 1`, `next_expires = expires`) and minimised on the
rest.  Accumulators mirror the C locals. -/
def drainLoop (flush_all : Bool) (now : Nat) :
    List DelayInfo → List DelayInfo → List DelayInfo → Bool → Nat →
    List DelayInfo × List DelayInfo × Bool × Nat
  | [], flushed, kept, start_timer, next_expires =>
    (flushed, kept, start_timer, next_expires)
  | d :: rest, flushed, kept, start_timer, next_expires =>
    if flush_all || decide (d.expires ≤ now) then
      drainLoop flush_all now rest (flushed ++ [d]) kept start_timer next_expires
    else if start_timer = false then
      drainLoop flush_all now rest flushed (kept ++ [d]) true d.expires
    else
      drainLoop flush_all now rest flushed (kept ++ [d]) true (min next_expires d.expires)

/-- `flush_delayed_bios(dc, flush_all)`: run the drain pass at time `now`,
decrement the direction counters for every removed entry, re-arm the timer
with the minimum remaining expiry when something is left pending, and return
the removed bios in scan order. -/
def flush_delayed_bios (dc : DelayC) (flush_all : Bool) (now : Nat) :
    DelayC × List DelayInfo :=
  let r := drainLoop flush_all now dc.delayed_bios [] [] false 0
  let flushed := r.1
  let kept := r.2.1
  let start_timer := r.2.2.1
  let next_expires := r.2.2.2
  let dc₁ := { dc with
    delayed_bios := kept,
    reads := dc.reads - (flushed.filter (fun d => d.dir = Dir.read)).length,
    writes := dc.writes - (flushed.filter (fun d => d.dir = Dir.write)).length }
  let dc₂ := if start_timer then queue_timeout dc₁ next_expires else dc₁
  (dc₂, flushed)

/-- The `unsigned` width of the platform. -/
def UINT_MOD : Nat := 2 ^ 32

/-- `store_delay`: the sysfs write handler body.  The input is parsed with
`sscanf("%d")` into an `unsigned` variable, so the parsed signed value is
reinterpreted as an unsigned (two's complement, modelled by `Int.emod` into
`[0, 2^32)`).  The guard `new_delay < 0` compares an unsigned against zero
and is therefore never taken; the new value is always stored, and the timer
is re-armed with `jiffies + new_delay`.  The sysfs `count` is returned on
every path. -/
def store_delay (dc : DelayC) (which : Dir) (parsed : Int) (count : Nat)
    (now : Nat) : DelayC × Int :=
  let new_delay : Nat := (parsed % (UINT_MOD : Int)).toNat
  if new_delay < 0 then
    (dc, (count : Int))
  else
    let dc₁ :=
      match which with
      | Dir.read => { dc with read_delay := new_delay }
      | Dir.write => { dc with write_delay := new_delay }
    (queue_timeout dc₁ (now + new_delay), (count : Int))

/-- `write_delay_store`: the sysfs handler for the write-delay attribute.
When no write device is configured it logs a warning and returns `count`
(success) without touching anything; otherwise it delegates to
`store_delay` on the write delay. -/
def write_delay_store (dc : DelayC) (parsed : Int) (count : Nat) (now : Nat) :
    DelayC × Int :=
  if dc.dev_write = none then
    (dc, (count : Int))
  else
    store_delay dc Dir.write parsed count now

/-- `read_delay_store`: the sysfs handler for the read-delay attribute,
a direct delegation to `store_delay` on the read delay. -/
def read_delay_store (dc : DelayC) (parsed : Int) (count : Nat) (now : Nat) :
    DelayC × Int :=
  store_delay dc Dir.read parsed count now

/-- The timer callback side effect of firing: the timer is no longer pending
when the flush work runs. -/
def timerCleared (dc : DelayC) : DelayC :=
  { dc with delay_timer := { dc.delay_timer with pending := false } }

/-- `delay_presuspend`: clear the may-delay flag, cancel the timer
synchronously (`del_timer_sync`), then force-flush the whole queue and return
the released bios. -/
def delay_presuspend (dc : DelayC) (now : Nat) : DelayC × List DelayInfo :=
  let dc₁ := { dc with may_delay := false }
  let dc₂ := timerCleared dc₁
  flush_delayed_bios dc₂ true now

/-- `delay_resume`: re-set the may-delay flag. -/
def delay_resume (dc : DelayC) : DelayC :=
  { dc with may_delay := true }

/-- `delay_ctr` result: fresh engine instance with zero counters, empty
queue, idle timer and the may-delay flag set; `wcfg` carries the optional
write endpoint triple (device, offset, delay). -/
def mkInit (devr sr rd : Nat) (wcfg : Option (Nat × Nat × Nat)) : DelayC :=
  { delay_timer := { pending := false, expires := 0 }
    delayed_bios := []
    may_delay := true
    dev_read := devr
    start_read := sr
    read_delay := rd
    reads := 0
    dev_write := wcfg.map (fun w => w.1)
    start_write := (wcfg.map (fun w => w.2.1)).getD 0
    write_delay := (wcfg.map (fun w => w.2.2)).getD 0
    writes := 0 }

/-- The flush condition of the drain pass: forced, or expired at `now`. -/
def flushCond (flush_all : Bool) (now : Nat) (d : DelayInfo) : Bool :=
  flush_all || decide (d.expires ≤ now)

/-- The `start_timer` / `next_expires` accumulation of the drain pass,
restricted to the kept entries. -/
def accMin (st : Bool) (ne : Nat) : List DelayInfo → Bool × Nat
  | [] => (st, ne)
  | d :: rest =>
    if st = false then accMin true d.expires rest
    else accMin true (min ne d.expires) rest

/-- The counter invariant: each direction counter equals the number of queued
entries of that direction. -/
def CountInv (dc : DelayC) : Prop :=
  dc.reads = (dc.delayed_bios.filter (fun d => d.dir = Dir.read)).length ∧
  dc.writes = (dc.delayed_bios.filter (fun d => d.dir = Dir.write)).length

/-- The scheduler invariant: while anything is queued, the timer is pending
and its armed time is at or below every queued expiry. -/
def TimerInv (dc : DelayC) : Prop :=
  dc.delayed_bios ≠ [] →
    dc.delay_timer.pending = true ∧
    ∀ d ∈ dc.delayed_bios, dc.delay_timer.expires ≤ d.expires


/-- A system state: the engine instance plus the current time (jiffies). -/
structure Sys where
  dc : DelayC
  now : Nat
deriving DecidableEq, Repr

/-- One step of the engine: time advancing, a bio routed through `delay_map`,
the timer firing and running the flush work, a sysfs delay write, presuspend,
or resume.  The timer may fire only while pending and once its armed time has
been reached, and firing clears the pending flag before the flush work
re-inspects the queue. -/
inductive Step : Sys → Sys → Prop where
  | tick (s : Sys) (t : Nat) (h : s.now ≤ t) : Step s ⟨s.dc, t⟩
  | map (s : Sys) (ti_begin : Nat) (bio : Bio) :
      Step s ⟨(delay_map s.dc ti_begin bio s.now).1, s.now⟩
  | fire (s : Sys) (hp : s.dc.delay_timer.pending = true)
      (ht : s.dc.delay_timer.expires ≤ s.now) :
      Step s ⟨(flush_delayed_bios (timerCleared s.dc) false s.now).1, s.now⟩
  | store_read (s : Sys) (parsed : Int) (count : Nat) :
      Step s ⟨(read_delay_store s.dc parsed count s.now).1, s.now⟩
  | store_write (s : Sys) (parsed : Int) (count : Nat) :
      Step s ⟨(write_delay_store s.dc parsed count s.now).1, s.now⟩
  | presuspend (s : Sys) :
      Step s ⟨(delay_presuspend s.dc s.now).1, s.now⟩
  | resume (s : Sys) : Step s ⟨delay_resume s.dc, s.now⟩

/-- A state is initial when it is a fresh `delay_ctr` result at some time. -/
def IsInit (s : Sys) : Prop :=
  ∃ devr sr rd wcfg now, s = ⟨mkInit devr sr rd wcfg, now⟩

/-- A state is reachable when some finite sequence of steps leads to it from
an initial state. -/
def Reachable (s : Sys) : Prop :=
  ∃ s₀, IsInit s₀ ∧ Relation.ReflTransGen Step s₀ s


theorem accMin_true (a : Nat) (l : List DelayInfo) :
    accMin true a l = (true, l.foldl (fun m d => min m d.expires) a) := by
  induction l generalizing a with
  | nil => simp [accMin]
  | cons d rest ih => simp [accMin, ih]

theorem foldl_min_le (l : List DelayInfo) (a : Nat) :
    l.foldl (fun m d => min m d.expires) a ≤ a ∧
    ∀ d ∈ l, l.foldl (fun m d => min m d.expires) a ≤ d.expires := by
  induction l generalizing a with
  | nil => simp
  | cons x rest ih =>
    refine ⟨le_trans (ih (min a x.expires)).1 (min_le_left _ _), ?_⟩
    intro d hd
    rcases List.mem_cons.mp hd with h | h
    · subst h
      exact le_trans (ih (min a d.expires)).1 (min_le_right _ _)
    · exact (ih (min a x.expires)).2 d h

theorem foldl_min_mem (l : List DelayInfo) (a : Nat) :
    l.foldl (fun m d => min m d.expires) a = a ∨
    l.foldl (fun m d => min m d.expires) a ∈ l.map DelayInfo.expires := by
  induction l generalizing a with
  | nil => simp
  | cons x rest ih =>
    rcases ih (min a x.expires) with h | h
    · rcases Nat.le_total a x.expires with hle | hle
      · left
        simpa [List.foldl, min_eq_left hle] using h
      · right
        rw [List.foldl] at *
        rw [h, min_eq_right hle]
        simp
    · right
      simpa [List.foldl] using Or.inr h

/-- The drain pass, fully characterised: flushed entries are exactly the
prefix-accumulated matches of the flush condition in scan order, kept entries
are the non-matches in scan order, and the timer accumulator runs `accMin`
over the kept entries. -/
theorem drainLoop_eq (fa : Bool) (now : Nat) (l flushed kept : List DelayInfo)
    (st : Bool) (ne : Nat) :
    drainLoop fa now l flushed kept st ne =
      (flushed ++ l.filter (flushCond fa now),
       kept ++ l.filter (fun d => !flushCond fa now d),
       accMin st ne (l.filter (fun d => !flushCond fa now d))) := by
  induction l generalizing flushed kept st ne with
  | nil => simp [drainLoop, accMin]
  | cons d rest ih =>
    cases h : flushCond fa now d with
    | true =>
      have hcond : (fa || decide (d.expires ≤ now)) = true := by
        simpa [flushCond] using h
      simp only [drainLoop]
      rw [if_pos hcond, ih]
      simp [List.filter_cons, h]
    | false =>
      have hcond : ¬((fa || decide (d.expires ≤ now)) = true) := by
        simp [flushCond] at h
        simp [h]
      simp only [drainLoop]
      rw [if_neg hcond]
      cases st with
      | false =>
        rw [if_pos rfl, ih]
        simp [List.filter_cons, h, accMin]
      | true =>
        rw [if_neg (by simp), ih]
        simp [List.filter_cons, h, accMin]

theorem accMin_false_cons (ne : Nat) (d : DelayInfo) (rest : List DelayInfo) :
    accMin false ne (d :: rest) =
      (true, rest.foldl (fun m x => min m x.expires) d.expires) := by
  simp [accMin, accMin_true]

theorem accMin_false_fst (ne : Nat) (l : List DelayInfo) :
    (accMin false ne l).1 = !l.isEmpty := by
  cases l with
  | nil => simp [accMin]
  | cons d rest => simp [accMin_false_cons]

theorem accMin_false_le (ne : Nat) (l : List DelayInfo) :
    ∀ d ∈ l, (accMin false ne l).2 ≤ d.expires := by
  cases l with
  | nil => simp
  | cons x rest =>
    intro d hd
    rw [accMin_false_cons]
    rcases List.mem_cons.mp hd with h | h
    · subst h
      exact (foldl_min_le rest d.expires).1
    · exact (foldl_min_le rest x.expires).2 d h

theorem accMin_false_mem (ne : Nat) (l : List DelayInfo) (hl : l ≠ []) :
    (accMin false ne l).2 ∈ l.map DelayInfo.expires := by
  cases l with
  | nil => exact absurd rfl hl
  | cons x rest =>
    rw [accMin_false_cons]
    rcases foldl_min_mem rest x.expires with h | h
    · simp [h]
    · simp [List.mem_cons]
      right
      simpa using h

/-- Frame facts of `queue_timeout`: only the timer is touched. -/
theorem queue_timeout_frame (dc : DelayC) (e : Nat) :
    (queue_timeout dc e).delayed_bios = dc.delayed_bios ∧
    (queue_timeout dc e).reads = dc.reads ∧
    (queue_timeout dc e).writes = dc.writes ∧
    (queue_timeout dc e).may_delay = dc.may_delay ∧
    (queue_timeout dc e).read_delay = dc.read_delay ∧
    (queue_timeout dc e).write_delay = dc.write_delay := by
  unfold queue_timeout
  split <;> simp

/-- Branch characterisation of `queue_timeout`. -/
theorem queue_timeout_spec (dc : DelayC) (e : Nat) :
    (dc.delay_timer.pending = false ∨ e < dc.delay_timer.expires →
       queue_timeout dc e = { dc with delay_timer := { pending := true, expires := e } }) ∧
    (¬(dc.delay_timer.pending = false ∨ e < dc.delay_timer.expires) →
       queue_timeout dc e = dc) := by
  constructor <;> intro h <;> simp [queue_timeout, h]

/-- `flush_delayed_bios`, rewritten through the drain-pass characterisation:
flush list and kept list are the two filters of the queue, counters drop by
the per-direction flush counts, and the timer is re-armed with the minimum
kept expiry exactly when something is kept. -/
theorem flush_delayed_bios_eq (dc : DelayC) (fa : Bool) (now : Nat) :
    flush_delayed_bios dc fa now =
      (let flushed := dc.delayed_bios.filter (flushCond fa now)
       let kept := dc.delayed_bios.filter (fun d => !flushCond fa now d)
       let acc := accMin false 0 kept
       let dc₁ : DelayC := { dc with
         delayed_bios := kept,
         reads := dc.reads - (flushed.filter (fun d => d.dir = Dir.read)).length,
         writes := dc.writes - (flushed.filter (fun d => d.dir = Dir.write)).length }
       (if acc.1 then queue_timeout dc₁ acc.2 else dc₁, flushed)) := by
  unfold flush_delayed_bios
  rw [drainLoop_eq]
  simp

theorem length_filter_partition (l : List DelayInfo) (p c : DelayInfo → Bool) :
    ((l.filter c).filter p).length + ((l.filter (fun d => !c d)).filter p).length
      = (l.filter p).length := by
  induction l with
  | nil => simp
  | cons d rest ih =>
    simp only [List.filter_filter] at ih ⊢
    cases hc : c d <;> cases hp : p d <;>
      simp [List.filter_cons, hc, hp] <;> omega

/-- `queue_timeout` preserves the scheduler invariant for an unchanged
queue: a reprogram can only move the armed time earlier (or arm an idle
timer, which by the invariant means the queue was empty). -/
theorem timerInv_queue_timeout (dc : DelayC) (e : Nat) (h : TimerInv dc) :
    TimerInv (queue_timeout dc e) := by
  intro hne
  rw [(queue_timeout_frame dc e).1] at hne
  unfold queue_timeout
  split
  case isTrue hc =>
    refine ⟨by simp, ?_⟩
    intro d hd
    simp only []
    rcases hc with hp | hlt
    · rcases h hne with ⟨hpend, _⟩
      rw [hp] at hpend
      cases hpend
    · rcases h hne with ⟨hpend, hbound⟩
      exact le_of_lt (lt_of_lt_of_le hlt (hbound d hd))
  case isFalse hc =>
    exact h hne

theorem countInv_queue_timeout (dc : DelayC) (e : Nat) (h : CountInv dc) :
    CountInv (queue_timeout dc e) := by
  obtain ⟨hq, hr, hw, -⟩ := queue_timeout_frame dc e
  exact ⟨by rw [hr, hq, h.1], by rw [hw, hq, h.2]⟩

/-- `delay_bio` on the no-delay path returns the context untouched. -/
theorem delay_bio_remapped (dc : DelayC) (delay : Nat) (bio : Bio) (now : Nat)
    (h : delay = 0 ∨ dc.may_delay = false) :
    delay_bio dc delay bio now = (dc, MapResult.remapped) := by
  unfold delay_bio
  rw [if_pos h]

/-- `delay_bio` on the deferred path: counter bumped, entry appended with
expiry `now + delay`, timer armed. -/
theorem delay_bio_submitted (dc : DelayC) (delay : Nat) (bio : Bio) (now : Nat)
    (h : ¬(delay = 0 ∨ dc.may_delay = false)) :
    delay_bio dc delay bio now =
      (queue_timeout
        { dc with
          reads := if bio.dir = Dir.write then dc.reads else dc.reads + 1,
          writes := if bio.dir = Dir.write then dc.writes + 1 else dc.writes,
          delayed_bios :=
            dc.delayed_bios ++ [{ id := bio.id, dir := bio.dir, expires := now + delay }] }
        (now + delay),
       MapResult.submitted) := by
  unfold delay_bio
  rw [if_neg h]
  cases hb : bio.dir <;> simp [hb]

theorem countInv_delay_bio (dc : DelayC) (delay : Nat) (bio : Bio) (now : Nat)
    (h : CountInv dc) :
    CountInv (delay_bio dc delay bio now).1 := by
  by_cases hc : delay = 0 ∨ dc.may_delay = false
  · rw [delay_bio_remapped dc delay bio now hc]
    exact h
  · rw [delay_bio_submitted dc delay bio now hc]
    apply countInv_queue_timeout
    obtain ⟨hr, hw⟩ := h
    cases hb : bio.dir <;>
      constructor <;>
        simp [List.filter_append, hb, hr, hw]

/-- Arming the timer with the expiry of a freshly appended entry restores the
scheduler invariant: the armed time can only move down, and an idle timer
means the queue was previously empty. -/
theorem timerInv_append_arm (dcq dc : DelayC) (info : DelayInfo)
    (hq : dcq.delayed_bios = dc.delayed_bios ++ [info])
    (ht : dcq.delay_timer = dc.delay_timer)
    (h : TimerInv dc) :
    TimerInv (queue_timeout dcq info.expires) := by
  intro _
  rw [(queue_timeout_frame _ _).1, hq]
  by_cases hc : dcq.delay_timer.pending = false ∨ info.expires < dcq.delay_timer.expires
  · rw [(queue_timeout_spec dcq info.expires).1 hc]
    refine ⟨rfl, ?_⟩
    intro d hd
    rcases List.mem_append.mp hd with hdl | hdr
    · have hne : dc.delayed_bios ≠ [] := by
        intro he
        rw [he] at hdl
        cases hdl
      rcases h hne with ⟨hpend, hbound⟩
      rcases hc with hp | hlt
      · rw [ht] at hp
        rw [hp] at hpend
        cases hpend
      · rw [ht] at hlt
        exact le_of_lt (lt_of_lt_of_le hlt (hbound d hdl))
    · simp at hdr
      subst hdr
      exact le_refl _
  · rw [(queue_timeout_spec dcq info.expires).2 hc]
    push_neg at hc
    obtain ⟨hpend, hle⟩ := hc
    refine ⟨by rwa [Bool.ne_false_iff] at hpend, ?_⟩
    intro d hd
    rcases List.mem_append.mp hd with hdl | hdr
    · have hne : dc.delayed_bios ≠ [] := by
        intro he
        rw [he] at hdl
        cases hdl
      rw [ht]
      exact (h hne).2 d hdl
    · simp at hdr
      subst hdr
      exact le_of_not_lt (by simpa using hle)

theorem timerInv_delay_bio (dc : DelayC) (delay : Nat) (bio : Bio) (now : Nat)
    (h : TimerInv dc) :
    TimerInv (delay_bio dc delay bio now).1 := by
  by_cases hc : delay = 0 ∨ dc.may_delay = false
  · rw [delay_bio_remapped dc delay bio now hc]
    exact h
  · rw [delay_bio_submitted dc delay bio now hc]
    exact timerInv_append_arm _ dc { id := bio.id, dir := bio.dir, expires := now + delay }
      rfl rfl h

theorem countInv_delay_map (dc : DelayC) (ti_begin : Nat) (bio : Bio) (now : Nat)
    (h : CountInv dc) :
    CountInv (delay_map dc ti_begin bio now).1 := by
  unfold delay_map
  split
  · exact countInv_delay_bio _ _ _ _ h
  · exact countInv_delay_bio _ _ _ _ h

theorem timerInv_delay_map (dc : DelayC) (ti_begin : Nat) (bio : Bio) (now : Nat)
    (h : TimerInv dc) :
    TimerInv (delay_map dc ti_begin bio now).1 := by
  unfold delay_map
  split
  · exact timerInv_delay_bio _ _ _ _ h
  · exact timerInv_delay_bio _ _ _ _ h

theorem countInv_flush (dc : DelayC) (fa : Bool) (now : Nat) (h : CountInv dc) :
    CountInv (flush_delayed_bios dc fa now).1 := by
  rw [flush_delayed_bios_eq]
  simp only
  have base : CountInv { dc with
      delayed_bios := dc.delayed_bios.filter (fun d => !flushCond fa now d),
      reads := dc.reads -
        ((dc.delayed_bios.filter (flushCond fa now)).filter (fun d => d.dir = Dir.read)).length,
      writes := dc.writes -
        ((dc.delayed_bios.filter (flushCond fa now)).filter (fun d => d.dir = Dir.write)).length } := by
    constructor
    · have hp := length_filter_partition dc.delayed_bios
        (fun d => decide (d.dir = Dir.read)) (flushCond fa now)
      simp only [h.1]
      omega
    · have hp := length_filter_partition dc.delayed_bios
        (fun d => decide (d.dir = Dir.write)) (flushCond fa now)
      simp only [h.2]
      omega
  split
  · exact countInv_queue_timeout _ _ base
  · exact base

theorem timerInv_flush (dc : DelayC) (fa : Bool) (now : Nat) :
    TimerInv (flush_delayed_bios dc fa now).1 := by
  rw [flush_delayed_bios_eq]
  simp only
  cases hk : dc.delayed_bios.filter (fun d => !flushCond fa now d) with
  | nil =>
    have hacc : (accMin false 0 ([] : List DelayInfo)).1 = false := rfl
    rw [hacc]
    simp only [Bool.false_eq_true, if_false]
    intro hne
    exact absurd rfl hne
  | cons k rest =>
    rw [accMin_false_fst]
    simp only [List.isEmpty_cons, Bool.not_false, if_true]
    intro _
    rw [(queue_timeout_frame _ _).1]
    set dcm : DelayC := { dc with
      delayed_bios := k :: rest,
      reads := dc.reads -
        ((dc.delayed_bios.filter (flushCond fa now)).filter (fun d => d.dir = Dir.read)).length,
      writes := dc.writes -
        ((dc.delayed_bios.filter (flushCond fa now)).filter (fun d => d.dir = Dir.write)).length }
      with hdcm
    by_cases hc : dcm.delay_timer.pending = false ∨
        (accMin false 0 (k :: rest)).2 < dcm.delay_timer.expires
    · rw [(queue_timeout_spec dcm (accMin false 0 (k :: rest)).2).1 hc]
      exact ⟨rfl, fun d hd => accMin_false_le 0 (k :: rest) d (by simpa [hdcm] using hd)⟩
    · rw [(queue_timeout_spec dcm (accMin false 0 (k :: rest)).2).2 hc]
      push_neg at hc
      obtain ⟨hpend, hle⟩ := hc
      refine ⟨by rwa [Bool.ne_false_iff] at hpend, ?_⟩
      intro d hd
      calc dcm.delay_timer.expires ≤ (accMin false 0 (k :: rest)).2 := le_of_not_lt (by simpa using hle)
        _ ≤ d.expires := accMin_false_le 0 (k :: rest) d (by simpa [hdcm] using hd)

theorem countInv_store_delay (dc : DelayC) (which : Dir) (parsed : Int)
    (count : Nat) (now : Nat) (h : CountInv dc) :
    CountInv (store_delay dc which parsed count now).1 := by
  simp only [store_delay, Nat.not_lt_zero, if_false]
  cases which
  · exact countInv_queue_timeout _ _ ⟨h.1, h.2⟩
  · exact countInv_queue_timeout _ _ ⟨h.1, h.2⟩

theorem timerInv_store_delay (dc : DelayC) (which : Dir) (parsed : Int)
    (count : Nat) (now : Nat) (h : TimerInv dc) :
    TimerInv (store_delay dc which parsed count now).1 := by
  simp only [store_delay, Nat.not_lt_zero, if_false]
  cases which
  · exact timerInv_queue_timeout _ _ (fun hne => h hne)
  · exact timerInv_queue_timeout _ _ (fun hne => h hne)

theorem countInv_step (s s' : Sys) (hs : Step s s') (h : CountInv s.dc) :
    CountInv s'.dc := by
  cases hs with
  | tick t ht => exact h
  | map ti_begin bio => exact countInv_delay_map _ _ _ _ h
  | fire hp ht => exact countInv_flush _ _ _ ⟨h.1, h.2⟩
  | store_read parsed count =>
    show CountInv (read_delay_store s.dc parsed count s.now).1
    unfold read_delay_store
    exact countInv_store_delay _ _ _ _ _ h
  | store_write parsed count =>
    show CountInv (write_delay_store s.dc parsed count s.now).1
    unfold write_delay_store
    split
    · exact h
    · exact countInv_store_delay _ _ _ _ _ h
  | presuspend =>
    show CountInv (delay_presuspend s.dc s.now).1
    unfold delay_presuspend timerCleared
    exact countInv_flush _ _ _ ⟨h.1, h.2⟩
  | resume => exact ⟨h.1, h.2⟩

theorem timerInv_step (s s' : Sys) (hs : Step s s') (h : TimerInv s.dc) :
    TimerInv s'.dc := by
  cases hs with
  | tick t ht => exact h
  | map ti_begin bio => exact timerInv_delay_map _ _ _ _ h
  | fire hp ht => exact timerInv_flush _ _ _
  | store_read parsed count =>
    show TimerInv (read_delay_store s.dc parsed count s.now).1
    unfold read_delay_store
    exact timerInv_store_delay _ _ _ _ _ h
  | store_write parsed count =>
    show TimerInv (write_delay_store s.dc parsed count s.now).1
    unfold write_delay_store
    split
    · exact h
    · exact timerInv_store_delay _ _ _ _ _ h
  | presuspend =>
    show TimerInv (delay_presuspend s.dc s.now).1
    unfold delay_presuspend timerCleared
    exact timerInv_flush _ _ _
  | resume => exact fun hne => h hne

theorem countInv_reachable (s : Sys) (h : Reachable s) : CountInv s.dc := by
  obtain ⟨s₀, hinit, hsteps⟩ := h
  obtain ⟨devr, sr, rd, wcfg, n₀, hs₀⟩ := hinit
  subst hs₀
  induction hsteps with
  | refl => exact ⟨rfl, rfl⟩
  | tail _ hstep ih => exact countInv_step _ _ hstep ih

theorem timerInv_reachable (s : Sys) (h : Reachable s) : TimerInv s.dc := by
  obtain ⟨s₀, hinit, hsteps⟩ := h
  obtain ⟨devr, sr, rd, wcfg, n₀, hs₀⟩ := hinit
  subst hs₀
  induction hsteps with
  | refl => exact fun hne => absurd rfl hne
  | tail _ hstep ih => exact timerInv_step _ _ hstep ih

/-- Frame facts of `store_delay`: the delay queue, admission flag and
counters are untouched, and the sysfs byte count is returned. -/
theorem store_delay_frame (dc : DelayC) (which : Dir) (parsed : Int)
    (count : Nat) (now : Nat) :
    (store_delay dc which parsed count now).1.delayed_bios = dc.delayed_bios ∧
    (store_delay dc which parsed count now).1.may_delay = dc.may_delay ∧
    (store_delay dc which parsed count now).1.reads = dc.reads ∧
    (store_delay dc which parsed count now).1.writes = dc.writes ∧
    (store_delay dc which parsed count now).2 = (count : Int) := by
  simp only [store_delay, Nat.not_lt_zero, if_false]
  cases which
  · obtain ⟨hq, hr, hw, hm, -⟩ := queue_timeout_frame
      { dc with read_delay := ((parsed % (UINT_MOD : Int)).toNat : Nat) }
      (now + (parsed % (UINT_MOD : Int)).toNat)
    exact ⟨hq, hm, hr, hw, by trivial⟩
  · obtain ⟨hq, hr, hw, hm, -⟩ := queue_timeout_frame
      { dc with write_delay := ((parsed % (UINT_MOD : Int)).toNat : Nat) }
      (now + (parsed % (UINT_MOD : Int)).toNat)
    exact ⟨hq, hm, hr, hw, by trivial⟩

/-- The delay value actually stored by `store_delay`: the parsed signed
value reinterpreted as an `unsigned`. -/
theorem store_delay_value (dc : DelayC) (parsed : Int) (count : Nat) (now : Nat) :
    (store_delay dc Dir.read parsed count now).1.read_delay =
      (parsed % (UINT_MOD : Int)).toNat ∧
    (store_delay dc Dir.write parsed count now).1.write_delay =
      (parsed % (UINT_MOD : Int)).toNat := by
  simp only [store_delay, Nat.not_lt_zero, if_false]
  constructor
  · exact (queue_timeout_frame _ _).2.2.2.2.1
  · exact (queue_timeout_frame _ _).2.2.2.2.2

/-- C2: a request whose effective delay is zero, or admitted while the
may-delay flag is cleared, is completed immediately as "remapped, not
delayed": the delay queue, both direction counters, and the timer state are
left exactly as they were. -/
theorem C2_thm (dc : DelayC) (delay : Nat) (bio : Bio) (now : Nat)
    (h : delay = 0 ∨ dc.may_delay = false) :
    (delay_bio dc delay bio now).2 = MapResult.remapped ∧
    (delay_bio dc delay bio now).1.delayed_bios = dc.delayed_bios ∧
    (delay_bio dc delay bio now).1.reads = dc.reads ∧
    (delay_bio dc delay bio now).1.writes = dc.writes ∧
    (delay_bio dc delay bio now).1.delay_timer = dc.delay_timer := by
  rw [delay_bio_remapped dc delay bio now h]
  exact ⟨rfl, rfl, rfl, rfl, rfl⟩

theorem C2_witness :
    (delay_bio (mkInit 1 0 5 none) 0
        { id := 0, bi_bdev := 0, bi_sector := 3, sectors := 1, dir := Dir.read } 10).2 =
      MapResult.remapped ∧
    (delay_bio (mkInit 1 0 5 none) 0
        { id := 0, bi_bdev := 0, bi_sector := 3, sectors := 1, dir := Dir.read } 10).1.delayed_bios =
      (mkInit 1 0 5 none).delayed_bios ∧
    (delay_bio (mkInit 1 0 5 none) 0
        { id := 0, bi_bdev := 0, bi_sector := 3, sectors := 1, dir := Dir.read } 10).1.reads =
      (mkInit 1 0 5 none).reads ∧
    (delay_bio (mkInit 1 0 5 none) 0
        { id := 0, bi_bdev := 0, bi_sector := 3, sectors := 1, dir := Dir.read } 10).1.writes =
      (mkInit 1 0 5 none).writes ∧
    (delay_bio (mkInit 1 0 5 none) 0
        { id := 0, bi_bdev := 0, bi_sector := 3, sectors := 1, dir := Dir.read } 10).1.delay_timer =
      (mkInit 1 0 5 none).delay_timer :=
  C2_thm (mkInit 1 0 5 none) 0
    { id := 0, bi_bdev := 0, bi_sector := 3, sectors := 1, dir := Dir.read } 10 (Or.inl rfl)

/-- C5, evaluated at the failing input: writing the text "-5" (parsed value
-5) to the read-delay attribute of an engine whose stored read delay is 7.
`sscanf("%d")` stores the two's-complement bits into the `unsigned`
`new_delay`, giving 2^32 - 5 = 4294967291, and the `new_delay < 0` guard —
an unsigned compared against zero — never fires, so the previous value 7 is
NOT retained: the stored delay becomes 4294967291, while the call still
returns `count` = 4 (reported success).  This contradicts the claim that a
negative input leaves the stored value unchanged; the dead rejection branch
and its warning message show the rejection was intended, so the code is at
fault. -/
theorem C5_thm :
    (store_delay (mkInit 1 0 7 none) Dir.read (-5) 4 100).1.read_delay = 4294967291 ∧
    (store_delay (mkInit 1 0 7 none) Dir.read (-5) 4 100).2 = (4 : Int) ∧
    (mkInit 1 0 7 none).read_delay = 7 := by
  refine ⟨?_, ?_, rfl⟩ <;> decide

/-- C6 (counterexample): with no write endpoint configured, a write to the
write-delay attribute returns `count` = 4 — a non-negative `ssize_t`, i.e.
reported success — so no configuration error is reported synchronously to
the caller; the rejection is only a logged warning. -/
theorem C6_cex :
    (write_delay_store (mkInit 1 0 5 none) 9 4 100).2 = (4 : Int) ∧
    ¬((write_delay_store (mkInit 1 0 5 none) 9 4 100).2 < 0) := by
  refine ⟨?_, ?_⟩ <;> decide

/-- C6 (amended): a write-delay store on an engine with no write endpoint is
rejected with only a logged warning: the engine state — in particular the
stored write-delay value — is returned completely unchanged, and the call
reports success by returning the input byte count. -/
theorem C6_thm (dc : DelayC) (parsed : Int) (count : Nat) (now : Nat)
    (h : dc.dev_write = none) :
    write_delay_store dc parsed count now = (dc, (count : Int)) := by
  unfold write_delay_store
  rw [if_pos h]

theorem C6_witness :
    write_delay_store (mkInit 1 0 5 none) 9 4 100 = (mkInit 1 0 5 none, (4 : Int)) :=
  C6_thm (mkInit 1 0 5 none) 9 4 100 rfl

/-- C8: presuspend clears the may-delay flag, leaves the timer cancelled
(the forced drain keeps nothing, so it never re-arms), force-drains the
queue to empty, and releases exactly the queued requests — the flushed
sequence IS the old queue, so it has the same length and every entry is
released exactly as many times as it was queued. -/
theorem C8_thm (dc : DelayC) (now : Nat) :
    (delay_presuspend dc now).1.may_delay = false ∧
    (delay_presuspend dc now).1.delay_timer.pending = false ∧
    (delay_presuspend dc now).2 = dc.delayed_bios ∧
    (delay_presuspend dc now).1.delayed_bios = [] ∧
    (delay_presuspend dc now).2.length = dc.delayed_bios.length ∧
    ∀ e : DelayInfo, (delay_presuspend dc now).2.count e = dc.delayed_bios.count e := by
  unfold delay_presuspend timerCleared
  rw [flush_delayed_bios_eq]
  simp [flushCond, accMin]

/-- C3: the drain pass removes exactly the entries whose expiry is ≤ `now`
(every entry when `flush_all` is forced), returns them as a sequence in
insertion order — the flushed list is the order-preserving filter of the
queue, hence a sublist of it, so completions of the same direction leave in
admission order — keeps the rest in order, and reports the minimum expiry
among the kept entries (`start_timer` false, i.e. no minimum, exactly when
nothing remains pending). -/
theorem C3_thm (q : List DelayInfo) (fa : Bool) (now : Nat) :
    (drainLoop fa now q [] [] false 0).1 =
      q.filter (fun d => fa || decide (d.expires ≤ now)) ∧
    (fa = true → (drainLoop fa now q [] [] false 0).1 = q) ∧
    (drainLoop fa now q [] [] false 0).2.1 =
      q.filter (fun d => !(fa || decide (d.expires ≤ now))) ∧
    List.Sublist (drainLoop fa now q [] [] false 0).1 q ∧
    ((drainLoop fa now q [] [] false 0).2.2.1 = true ↔
      (drainLoop fa now q [] [] false 0).2.1 ≠ []) ∧
    ((drainLoop fa now q [] [] false 0).2.2.1 = true →
      (∀ d ∈ (drainLoop fa now q [] [] false 0).2.1,
        (drainLoop fa now q [] [] false 0).2.2.2 ≤ d.expires) ∧
      (drainLoop fa now q [] [] false 0).2.2.2 ∈
        (drainLoop fa now q [] [] false 0).2.1.map DelayInfo.expires) := by
  rw [drainLoop_eq]
  simp only [List.nil_append]
  refine ⟨rfl, ?_, rfl, ?_, ?_, ?_⟩
  · intro hfa
    subst hfa
    simp [flushCond]
  · exact List.filter_sublist q
  · rw [accMin_false_fst]
    cases hk : q.filter (fun d => !flushCond fa now d) <;> simp
  · intro hst
    have hne : q.filter (fun d => !flushCond fa now d) ≠ [] := by
      rw [accMin_false_fst] at hst
      cases hk : q.filter (fun d => !flushCond fa now d)
      · rw [hk] at hst
        cases hst
      · simp
    exact ⟨fun d hd => accMin_false_le 0 _ d hd, accMin_false_mem 0 _ hne⟩

theorem C3_witness :
    (drainLoop false 10
        [{ id := 0, dir := Dir.read, expires := 5 },
         { id := 1, dir := Dir.write, expires := 20 },
         { id := 2, dir := Dir.read, expires := 15 }] [] [] false 0).1 =
      [{ id := 0, dir := Dir.read, expires := 5 }] ∧
    (drainLoop false 10
        [{ id := 0, dir := Dir.read, expires := 5 },
         { id := 1, dir := Dir.write, expires := 20 },
         { id := 2, dir := Dir.read, expires := 15 }] [] [] false 0).2.2.2 ≤
      (DelayInfo.mk 1 Dir.write 20).expires ∧
    (drainLoop false 10
        [{ id := 0, dir := Dir.read, expires := 5 },
         { id := 1, dir := Dir.write, expires := 20 },
         { id := 2, dir := Dir.read, expires := 15 }] [] [] false 0).2.2.2 ∈
      ((drainLoop false 10
        [{ id := 0, dir := Dir.read, expires := 5 },
         { id := 1, dir := Dir.write, expires := 20 },
         { id := 2, dir := Dir.read, expires := 15 }] [] [] false 0).2.1.map
          DelayInfo.expires) := by
  have h := C3_thm
    [{ id := 0, dir := Dir.read, expires := 5 },
     { id := 1, dir := Dir.write, expires := 20 },
     { id := 2, dir := Dir.read, expires := 15 }] false 10
  refine ⟨?_, ?_, (h.2.2.2.2.2 (by decide)).2⟩
  · rw [h.1]
    decide
  · exact (h.2.2.2.2.2 (by decide)).1 (DelayInfo.mk 1 Dir.write 20) (by decide)

/-- C10: on the write path with a configured write endpoint the sector
translation `start_write + dm_target_offset` is applied exactly when the bio
carries a nonzero number of sectors — a zero-sector bio keeps its original
sector — while on the read path the translation `start_read +
dm_target_offset` is applied unconditionally. -/
theorem C10_thm (dc : DelayC) (ti_begin : Nat) (bio : Bio) (now : Nat) :
    (bio.dir = Dir.write ∧ dc.dev_write ≠ none →
      (bio.sectors = 0 →
        (delay_map dc ti_begin bio now).2.1.bi_sector = bio.bi_sector) ∧
      (bio.sectors ≠ 0 →
        (delay_map dc ti_begin bio now).2.1.bi_sector =
          dc.start_write + dm_target_offset ti_begin bio.bi_sector)) ∧
    (¬(bio.dir = Dir.write ∧ dc.dev_write ≠ none) →
      (delay_map dc ti_begin bio now).2.1.bi_sector =
        dc.start_read + dm_target_offset ti_begin bio.bi_sector) := by
  constructor
  · intro hw
    unfold delay_map
    rw [if_pos hw]
    constructor
    · intro hs
      simp [hs]
    · intro hs
      simp [hs]
  · intro hw
    unfold delay_map
    rw [if_neg hw]

theorem C10_witness :
    (delay_map (mkInit 1 30 5 (some (2, 100, 7))) 0
        { id := 0, bi_bdev := 0, bi_sector := 10, sectors := 0, dir := Dir.write } 3).2.1.bi_sector
      = 10 ∧
    (delay_map (mkInit 1 30 5 (some (2, 100, 7))) 0
        { id := 1, bi_bdev := 0, bi_sector := 10, sectors := 4, dir := Dir.write } 3).2.1.bi_sector
      = 110 ∧
    (delay_map (mkInit 1 30 5 (some (2, 100, 7))) 0
        { id := 2, bi_bdev := 0, bi_sector := 10, sectors := 4, dir := Dir.read } 3).2.1.bi_sector
      = 40 := by
  refine ⟨?_, ?_, ?_⟩
  · exact ((C10_thm (mkInit 1 30 5 (some (2, 100, 7))) 0
      { id := 0, bi_bdev := 0, bi_sector := 10, sectors := 0, dir := Dir.write } 3).1
      ⟨rfl, by decide⟩).1 rfl
  · exact ((C10_thm (mkInit 1 30 5 (some (2, 100, 7))) 0
      { id := 1, bi_bdev := 0, bi_sector := 10, sectors := 4, dir := Dir.write } 3).1
      ⟨rfl, by decide⟩).2 (by decide)
  · exact (C10_thm (mkInit 1 30 5 (some (2, 100, 7))) 0
      { id := 2, bi_bdev := 0, bi_sector := 10, sectors := 4, dir := Dir.read } 3).2
      (by decide)

/-- C1 (counterexample): a zero-sector write bio (e.g. an empty flush) on
the write path of an engine with write endpoint base offset 100 keeps its
original sector 10, while the claimed unconditional translation "base offset
+ logical offset" would give 110 — so the offset clause of the claim fails
as stated for zero-sector writes. -/
theorem C1_cex :
    ¬((delay_map (mkInit 1 30 5 (some (2, 100, 7))) 0
        { id := 0, bi_bdev := 0, bi_sector := 10, sectors := 0, dir := Dir.write } 3).2.1.bi_sector
      = (mkInit 1 30 5 (some (2, 100, 7))).start_write +
          dm_target_offset 0
            (Bio.mk 0 0 10 0 Dir.write).bi_sector) := by
  decide

/-- C1 (amended): the Dispatch Router selects the write endpoint and write
delay exactly when the request is a write and a write endpoint is
configured, and otherwise the read endpoint and read delay: the bio is
redirected to the selected endpoint's device, the deferred-or-not outcome
and the stamped expiry `now + delay` are governed by the selected delay, and
the device-relative offset equals the selected endpoint's base offset plus
the request's logical offset — except that on the write path this
translation is only applied to requests carrying a nonzero sector count
(a zero-sector write keeps its original sector). -/
theorem C1_thm (dc : DelayC) (ti_begin : Nat) (bio : Bio) (now : Nat) :
    (bio.dir = Dir.write ∧ dc.dev_write ≠ none →
      (delay_map dc ti_begin bio now).2.1.bi_bdev = dc.dev_write.getD 0 ∧
      (bio.sectors ≠ 0 →
        (delay_map dc ti_begin bio now).2.1.bi_sector =
          dc.start_write + dm_target_offset ti_begin bio.bi_sector) ∧
      (dc.write_delay = 0 ∨ dc.may_delay = false →
        (delay_map dc ti_begin bio now).2.2 = MapResult.remapped ∧
        (delay_map dc ti_begin bio now).1 = dc) ∧
      (¬(dc.write_delay = 0 ∨ dc.may_delay = false) →
        (delay_map dc ti_begin bio now).2.2 = MapResult.submitted ∧
        (delay_map dc ti_begin bio now).1.delayed_bios =
          dc.delayed_bios ++
            [{ id := bio.id, dir := bio.dir, expires := now + dc.write_delay }])) ∧
    (¬(bio.dir = Dir.write ∧ dc.dev_write ≠ none) →
      (delay_map dc ti_begin bio now).2.1.bi_bdev = dc.dev_read ∧
      (delay_map dc ti_begin bio now).2.1.bi_sector =
        dc.start_read + dm_target_offset ti_begin bio.bi_sector ∧
      (dc.read_delay = 0 ∨ dc.may_delay = false →
        (delay_map dc ti_begin bio now).2.2 = MapResult.remapped ∧
        (delay_map dc ti_begin bio now).1 = dc) ∧
      (¬(dc.read_delay = 0 ∨ dc.may_delay = false) →
        (delay_map dc ti_begin bio now).2.2 = MapResult.submitted ∧
        (delay_map dc ti_begin bio now).1.delayed_bios =
          dc.delayed_bios ++
            [{ id := bio.id, dir := bio.dir, expires := now + dc.read_delay }])) := by
  constructor
  · intro hw
    unfold delay_map
    rw [if_pos hw]
    dsimp only
    refine ⟨by split <;> rfl, ?_, ?_, ?_⟩
    · intro hs
      simp [hs]
    · intro hz
      rw [delay_bio_remapped dc dc.write_delay _ now hz]
      exact ⟨rfl, rfl⟩
    · intro hz
      rw [delay_bio_submitted dc dc.write_delay _ now hz]
      refine ⟨rfl, ?_⟩
      rw [(queue_timeout_frame _ _).1]
      split <;> rfl
  · intro hw
    unfold delay_map
    rw [if_neg hw]
    dsimp only
    refine ⟨rfl, rfl, ?_, ?_⟩
    · intro hz
      rw [delay_bio_remapped dc dc.read_delay _ now hz]
      exact ⟨rfl, rfl⟩
    · intro hz
      rw [delay_bio_submitted dc dc.read_delay _ now hz]
      refine ⟨rfl, ?_⟩
      rw [(queue_timeout_frame _ _).1]

theorem C1_witness :
    (delay_map (mkInit 1 30 5 (some (2, 100, 7))) 0
        { id := 9, bi_bdev := 0, bi_sector := 10, sectors := 4, dir := Dir.write } 3).2.1.bi_bdev
      = 2 ∧
    (delay_map (mkInit 1 30 5 (some (2, 100, 7))) 0
        { id := 9, bi_bdev := 0, bi_sector := 10, sectors := 4, dir := Dir.write } 3).2.1.bi_sector
      = 110 ∧
    (delay_map (mkInit 1 30 5 (some (2, 100, 7))) 0
        { id := 9, bi_bdev := 0, bi_sector := 10, sectors := 4, dir := Dir.write } 3).2.2
      = MapResult.submitted ∧
    (delay_map (mkInit 1 30 5 (some (2, 100, 7))) 0
        { id := 9, bi_bdev := 0, bi_sector := 10, sectors := 4, dir := Dir.write } 3).1.delayed_bios
      = [{ id := 9, dir := Dir.write, expires := 10 }] := by
  have h := (C1_thm (mkInit 1 30 5 (some (2, 100, 7))) 0
    { id := 9, bi_bdev := 0, bi_sector := 10, sectors := 4, dir := Dir.write } 3).1
    ⟨rfl, by decide⟩
  refine ⟨h.1, h.2.1 (by decide), (h.2.2.2 (by decide)).1, ?_⟩
  rw [(h.2.2.2 (by decide)).2]
  rfl

/-- C4: a control-plane write of a new delay value — through either the
read-delay or the write-delay attribute — leaves the delay queue, and hence
the expiry stamped on every already-queued request, exactly unchanged; the
written value is what the store records, and a request admitted and deferred
after the write is stamped with `now + (the newly stored delay)`, so only
requests admitted after the write use the new delay. -/
theorem C4_thm (dc : DelayC) (parsed : Int) (count : Nat) (now : Nat) :
    (read_delay_store dc parsed count now).1.delayed_bios = dc.delayed_bios ∧
    (write_delay_store dc parsed count now).1.delayed_bios = dc.delayed_bios ∧
    (∀ d ∈ (read_delay_store dc parsed count now).1.delayed_bios,
      d ∈ dc.delayed_bios ∧ d.expires = d.expires) ∧
    (read_delay_store dc parsed count now).1.read_delay =
      (parsed % (UINT_MOD : Int)).toNat ∧
    (∀ bio : Bio, ∀ later : Nat,
      ¬((read_delay_store dc parsed count now).1.read_delay = 0 ∨
        (read_delay_store dc parsed count now).1.may_delay = false) →
      (delay_bio (read_delay_store dc parsed count now).1
          (read_delay_store dc parsed count now).1.read_delay bio later).1.delayed_bios =
        dc.delayed_bios ++
          [{ id := bio.id, dir := bio.dir,
             expires := later + (parsed % (UINT_MOD : Int)).toNat }]) := by
  have hrq : (read_delay_store dc parsed count now).1.delayed_bios = dc.delayed_bios := by
    unfold read_delay_store
    exact (store_delay_frame dc Dir.read parsed count now).1
  have hrv : (read_delay_store dc parsed count now).1.read_delay =
      (parsed % (UINT_MOD : Int)).toNat := by
    unfold read_delay_store
    exact (store_delay_value dc parsed count now).1
  refine ⟨hrq, ?_, ?_, hrv, ?_⟩
  · unfold write_delay_store
    split
    · rfl
    · exact (store_delay_frame dc Dir.write parsed count now).1
  · intro d hd
    rw [hrq] at hd
    exact ⟨hd, rfl⟩
  · intro bio later hz
    rw [delay_bio_submitted _ _ bio later hz]
    rw [(queue_timeout_frame _ _).1]
    dsimp only
    rw [hrq, hrv]

theorem C4_witness :
    (read_delay_store (mkInit 1 30 5 none) 9 4 100).1.delayed_bios =
      (mkInit 1 30 5 none).delayed_bios ∧
    (read_delay_store (mkInit 1 30 5 none) 9 4 100).1.read_delay = 9 ∧
    (delay_bio (read_delay_store (mkInit 1 30 5 none) 9 4 100).1
        (read_delay_store (mkInit 1 30 5 none) 9 4 100).1.read_delay
        { id := 3, bi_bdev := 0, bi_sector := 1, sectors := 2, dir := Dir.read }
        200).1.delayed_bios =
      (mkInit 1 30 5 none).delayed_bios ++
        [{ id := 3, dir := Dir.read, expires := 209 }] := by
  have h := C4_thm (mkInit 1 30 5 none) 9 4 100
  refine ⟨h.1, h.2.2.2.1, ?_⟩
  exact h.2.2.2.2 { id := 3, bi_bdev := 0, bi_sector := 1, sectors := 2, dir := Dir.read }
    200 (by decide)

/-- C7: in every reachable state of an engine instance, whenever anything is
queued the timer is pending and its armed wake time is ≤ the expiry of every
queued entry (hence ≤ the minimum queued expiry); and `queue_timeout`
reprograms the timer exactly when no timer is pending or the candidate is
earlier than the currently armed time, leaving it untouched otherwise. -/
theorem C7_thm (s : Sys) (h : Reachable s) :
    (s.dc.delayed_bios ≠ [] →
      s.dc.delay_timer.pending = true ∧
      ∀ d ∈ s.dc.delayed_bios, s.dc.delay_timer.expires ≤ d.expires) ∧
    (∀ dc : DelayC, ∀ cand : Nat,
      (dc.delay_timer.pending = false ∨ cand < dc.delay_timer.expires →
        queue_timeout dc cand =
          { dc with delay_timer := { pending := true, expires := cand } }) ∧
      (¬(dc.delay_timer.pending = false ∨ cand < dc.delay_timer.expires) →
        queue_timeout dc cand = dc)) :=
  ⟨timerInv_reachable s h, fun dc cand => queue_timeout_spec dc cand⟩

theorem C7_witness :
    queue_timeout (mkInit 3 0 5 none) 42 =
      { mkInit 3 0 5 none with delay_timer := { pending := true, expires := 42 } } := by
  have h := C7_thm { dc := mkInit 3 0 5 none, now := 0 }
    ⟨{ dc := mkInit 3 0 5 none, now := 0 }, ⟨3, 0, 5, none, 0, rfl⟩,
      Relation.ReflTransGen.refl⟩
  exact (h.2 (mkInit 3 0 5 none) 42).1 (Or.inl rfl)

/-- C9: in every reachable state, the read counter equals the number of
read-direction entries in the delay queue and the write counter equals the
number of write-direction entries. -/
theorem C9_thm (s : Sys) (h : Reachable s) :
    s.dc.reads = (s.dc.delayed_bios.filter (fun d => d.dir = Dir.read)).length ∧
    s.dc.writes = (s.dc.delayed_bios.filter (fun d => d.dir = Dir.write)).length :=
  countInv_reachable s h

theorem C9_witness :
    (Sys.mk (delay_map (mkInit 3 0 5 none) 0
        { id := 0, bi_bdev := 0, bi_sector := 1, sectors := 2, dir := Dir.read } 0).1 0).dc.reads =
      ((Sys.mk (delay_map (mkInit 3 0 5 none) 0
          { id := 0, bi_bdev := 0, bi_sector := 1, sectors := 2, dir := Dir.read } 0).1
          0).dc.delayed_bios.filter (fun d => d.dir = Dir.read)).length ∧
    (Sys.mk (delay_map (mkInit 3 0 5 none) 0
        { id := 0, bi_bdev := 0, bi_sector := 1, sectors := 2, dir := Dir.read } 0).1 0).dc.writes =
      ((Sys.mk (delay_map (mkInit 3 0 5 none) 0
          { id := 0, bi_bdev := 0, bi_sector := 1, sectors := 2, dir := Dir.read } 0).1
          0).dc.delayed_bios.filter (fun d => d.dir = Dir.write)).length :=
  C9_thm
    (Sys.mk (delay_map (mkInit 3 0 5 none) 0
      { id := 0, bi_bdev := 0, bi_sector := 1, sectors := 2, dir := Dir.read } 0).1 0)
    ⟨{ dc := mkInit 3 0 5 none, now := 0 }, ⟨3, 0, 5, none, 0, rfl⟩,
      Relation.ReflTransGen.single
        (Step.map { dc := mkInit 3 0 5 none, now := 0 } 0
          { id := 0, bi_bdev := 0, bi_sector := 1, sectors := 2, dir := Dir.read })⟩

end Ddi
